import Mathlib

/-!
# Verification of the AIVideoSync beat-retiming core

Shallow embedding of the retiming planner, the beat grid and the tempo
estimator from `src/syncToBeat/main.go`. Go `float64` arithmetic is modelled
by exact rationals; Go's `math.Round` (round half away from zero) is
`goRound`. The planner's ffmpeg invocation and all file I/O sit outside the
computation modelled here: `ffmpegAdjustSpeed` below embeds the pure
per-keyframe planning loop (lines 184-230 of the source) up to the point
where the segment plan is handed to the external transcoding engine.
-/

attribute [local semireducible] Rat.mul Rat.add Rat.sub Rat.inv

deriving instance DecidableEq for Except

/-- A keyframe carries a single timestamp in seconds, as the Go struct
`Keyframe { Time float64 }`. -/
structure Keyframe where
  time : ℚ
deriving Repr, DecidableEq

/-- A planned segment: the trim window on the source timeline
(`sourceStart` and `sourceEnd`, the loop's `lastTime` and `kf.Time`), the
divisor actually used for the speed computation (`targetDuration`, the
loop's `adjustedSegmentDuration` after the epsilon clamp) and the resulting
`speedFactor` baked into the emitted filter string. -/
structure Segment where
  sourceStart : ℚ
  sourceEnd : ℚ
  targetDuration : ℚ
  speedFactor : ℚ
deriving Repr, DecidableEq

/-- Go `math.Round`: round to the nearest integer, halves away from zero. -/
def goRound (x : ℚ) : ℚ :=
  if 0 ≤ x then (⌊x + 1 / 2⌋ : ℤ) else (⌈x - 1 / 2⌉ : ℤ)

/-- Function `roundToBeat` of `src/syncToBeat/main.go` lines 302-304:
`math.Round(value*100) / 100`. -/
def roundToBeat (value : ℚ) : ℚ :=
  goRound (value * 100) / 100

/-- The nearest-beat computation of the planner loop (lines 195-196):
`beatNumber := roundToBeat(kf.Time / beatDuration)` followed by
`nearestBeatTime := beatNumber * beatDuration`. -/
def nearestBeatTime (beatDuration t : ℚ) : ℚ :=
  roundToBeat (t / beatDuration) * beatDuration

/-- The per-keyframe loop of `ffmpegAdjustSpeed` (lines 188-225): walks the
keyframes carrying the loop index `i` and `lastTime`, skips the first
keyframe when its time is `0`, skips zero source-duration segments, clamps a
zero target duration to `0.01`, and emits one `Segment` per retained
keyframe. -/
def planSegments (beatDuration : ℚ) : Nat → ℚ → List Keyframe → List Segment
  | _, _, [] => []
  | i, lastTime, kf :: rest =>
    if i = 0 ∧ kf.time = 0 then
      planSegments beatDuration (i + 1) lastTime rest
    else
      let nbt := nearestBeatTime beatDuration kf.time
      let segmentDuration := kf.time - lastTime
      if segmentDuration = 0 then
        planSegments beatDuration (i + 1) lastTime rest
      else
        let adjustedSegmentDuration :=
          if nbt - lastTime = 0 then 1 / 100 else nbt - lastTime
        let speedFactor := segmentDuration / adjustedSegmentDuration
        { sourceStart := lastTime, sourceEnd := kf.time,
          targetDuration := adjustedSegmentDuration,
          speedFactor := speedFactor } ::
          planSegments beatDuration (i + 1) kf.time rest

/-- The planning portion of `ffmpegAdjustSpeed` (lines 177-230):
`beatDuration := 60 / bpm`, run the per-keyframe loop from `lastTime = 0`,
and fail with `"no segments to process"` when no segment was emitted
(`len(concatParts) == 0` in the source). The subsequent hand-off of the
plan to ffmpeg is external and not modelled. -/
def ffmpegAdjustSpeed (bpm : ℚ) (keyframes : List Keyframe) :
    Except String (List Segment) :=
  let beatDuration := 60 / bpm
  let segs := planSegments beatDuration 0 0 keyframes
  if segs = [] then .error "no segments to process" else .ok segs

/-- The body of `estimateBPM`'s interval loop (lines 315-318), carrying the
previous keyframe's time: each step adds
`keyframes[i].Time - keyframes[i-1].Time`. -/
def totalIntervalFrom (prev : ℚ) : List Keyframe → ℚ
  | [] => 0
  | k :: rest => (k.time - prev) + totalIntervalFrom k.time rest

/-- The accumulated `totalInterval` of `estimateBPM` (lines 314-318): the
sum of consecutive keyframe time differences. -/
def totalInterval : List Keyframe → ℚ
  | [] => 0
  | k :: rest => totalIntervalFrom k.time rest

/-- The multiplier loop of `estimateBPM` (lines 327-335): try each
multiplier in order and return `initialEstimate * m` for the first one
whose product lands in `[50, 200]` (the loop breaks there); with no
qualifying multiplier, `closestBPM` keeps its initial value
`initialEstimate`. -/
def adjustForBar (initialEstimate : ℚ) : List ℚ → ℚ
  | [] => initialEstimate
  | m :: rest =>
    if 50 ≤ initialEstimate * m ∧ initialEstimate * m ≤ 200 then
      initialEstimate * m
    else
      adjustForBar initialEstimate rest

/-- Function `estimateBPM` of `src/syncToBeat/main.go` lines 307-338: with
fewer than two keyframes return the sentinel `0`; otherwise average the
consecutive intervals, take `60 / averageInterval`, and adjust by the first
qualifying multiplier among `{1, 2, 4}`. -/
def estimateBPM (keyframes : List Keyframe) : ℚ :=
  if keyframes.length < 2 then 0
  else
    let averageInterval := totalInterval keyframes / ((keyframes.length : ℚ) - 1)
    let initialEstimate := 60 / averageInterval
    adjustForBar initialEstimate [1, 2, 4]

/-- Round half away from zero, stated the way the spec words it (§4.3): the
magnitude is rounded up at ties, the sign is restored afterwards. Used as
the spec-side reference point for `goRound` in the refinement claim C5. -/
def roundHalfAwayFromZero (x : ℚ) : ℤ :=
  if 0 ≤ x then ⌊x + 1 / 2⌋ else -⌊-x + 1 / 2⌋

/-- Spec-side nearest-beat function, following the words of §4.3: round
`t / beatDuration` half away from zero to the nearest `0.01` (scale by 100,
round to an integer, scale back) and multiply back by `beatDuration`.
Compared with the source-side `nearestBeatTime` in claim C5. -/
def nearestBeatSpec (t beatDuration : ℚ) : ℚ :=
  (roundHalfAwayFromZero (t / beatDuration * 100) : ℚ) / 100 * beatDuration

/-- Spec-side tempo estimator, following the words of §4.2: the first
multiplier in `{1, 2, 4}` whose product with `60 / averageInterval` lies in
`[50, 200]` is accepted; if none qualifies the unmultiplied estimate is
returned. Compared with the source-side `estimateBPM` in claim C8. -/
def estimateBPMSpec (keyframes : List Keyframe) : ℚ :=
  let averageInterval := totalInterval keyframes / ((keyframes.length : ℚ) - 1)
  let initialEstimate := 60 / averageInterval
  match ([1, 2, 4] : List ℚ).find?
      (fun m => decide (50 ≤ initialEstimate * m) &&
        decide (initialEstimate * m ≤ 200)) with
  | some m => initialEstimate * m
  | none => initialEstimate

/-- Segment lists that tile the source timeline starting at `lt`: each
segment starts where the previous one ended. -/
def ChainedFrom : ℚ → List Segment → Prop
  | _, [] => True
  | lt, s :: rest => s.sourceStart = lt ∧ ChainedFrom s.sourceEnd rest

/-- The time of the last keyframe of a list, with a fallback for the empty
list; mirrors the final value of the loop variable `lastTime`. -/
def lastKeyframeTime (fallback : ℚ) : List Keyframe → ℚ
  | [] => fallback
  | k :: rest => lastKeyframeTime k.time rest

theorem chainedFrom_nil (lt : ℚ) : ChainedFrom lt [] := trivial

theorem chainedFrom_cons {lt : ℚ} {s : Segment} {rest : List Segment} :
    ChainedFrom lt (s :: rest) ↔ s.sourceStart = lt ∧ ChainedFrom s.sourceEnd rest :=
  Iff.rfl

theorem mem_planSegments {d : ℚ} {kfs : List Keyframe} :
    ∀ {i : Nat} {lt : ℚ} {s : Segment}, s ∈ planSegments d i lt kfs →
      s.sourceEnd - s.sourceStart ≠ 0 ∧ s.targetDuration ≠ 0 ∧
        s.speedFactor = (s.sourceEnd - s.sourceStart) / s.targetDuration := by
  induction kfs with
  | nil => intro i lt s hs; simp [planSegments] at hs
  | cons kf rest ih =>
    intro i lt s hs
    simp only [planSegments] at hs
    split at hs
    · exact ih hs
    · split at hs
      · exact ih hs
      · rename_i hseg
        rcases List.mem_cons.mp hs with rfl | hmem
        · refine ⟨by simpa using hseg, ?_, rfl⟩
          dsimp only
          split
          · norm_num
          · assumption
        · exact ih hmem

theorem planSegments_chainedFrom (d : ℚ) (kfs : List Keyframe) :
    ∀ (i : Nat) (lt : ℚ), ChainedFrom lt (planSegments d i lt kfs) := by
  induction kfs with
  | nil => intro i lt; simp [planSegments, chainedFrom_nil]
  | cons kf rest ih =>
    intro i lt
    simp only [planSegments]
    split
    · exact ih _ _
    · split
      · exact ih _ _
      · exact chainedFrom_cons.mpr ⟨rfl, ih _ _⟩

theorem chainedFrom_chain' :
    ∀ (segs : List Segment) (lt : ℚ), ChainedFrom lt segs →
      List.Chain' (fun a b => a.sourceEnd = b.sourceStart) segs := by
  intro segs
  induction segs with
  | nil => intro lt _; simp
  | cons a rest ih =>
    intro lt h
    obtain ⟨h1, h2⟩ := chainedFrom_cons.mp h
    cases rest with
    | nil => simp
    | cons b rest2 =>
      obtain ⟨hb, h3⟩ := chainedFrom_cons.mp h2
      exact List.Chain'.cons hb.symm (ih _ (chainedFrom_cons.mpr ⟨hb, h3⟩))

theorem planSegments_sum (d : ℚ) (kfs : List Keyframe) :
    ∀ (i : Nat) (lt : ℚ), (i = 0 → lt = 0) →
      ((planSegments d i lt kfs).map (fun s => s.sourceEnd - s.sourceStart)).sum
        = lastKeyframeTime lt kfs - lt := by
  induction kfs with
  | nil => intro i lt _; simp [planSegments, lastKeyframeTime]
  | cons kf rest ih =>
    intro i lt h0
    simp only [planSegments, lastKeyframeTime]
    split
    · rename_i hc
      rw [ih (i + 1) lt (fun h => absurd h (Nat.succ_ne_zero i))]
      rw [hc.2, h0 hc.1]
    · split
      · rename_i hzero
        rw [ih (i + 1) lt (fun h => absurd h (Nat.succ_ne_zero i))]
        rw [show kf.time = lt from sub_eq_zero.mp hzero]
      · simp only [List.map_cons, List.sum_cons]
        rw [ih (i + 1) kf.time (fun h => absurd h (Nat.succ_ne_zero i))]
        show kf.time - lt + (lastKeyframeTime kf.time rest - kf.time) =
          lastKeyframeTime kf.time rest - lt
        ring

theorem lastKeyframeTime_eq_getLast :
    ∀ (l : List Keyframe) (h : l ≠ []) (fb : ℚ),
      lastKeyframeTime fb l = (l.getLast h).time := by
  intro l
  induction l with
  | nil => intro h; exact absurd rfl h
  | cons k rest ih =>
    intro h fb
    cases rest with
    | nil => simp [lastKeyframeTime]
    | cons c rest2 =>
      rw [lastKeyframeTime, ih (by simp)]
      simp [List.getLast_cons]

theorem lastKeyframeTime_eq_getLastD :
    ∀ (l : List Keyframe) (fb : ℚ),
      lastKeyframeTime fb l = ((l.getLast?).map Keyframe.time).getD fb := by
  intro l
  induction l with
  | nil => intro fb; simp [lastKeyframeTime]
  | cons k rest ih =>
    intro fb
    cases rest with
    | nil => simp [lastKeyframeTime]
    | cons c rest2 =>
      rw [lastKeyframeTime, ih]
      obtain ⟨x, hx⟩ := Option.isSome_iff_exists.mp
        (List.getLast?_isSome.mpr (List.cons_ne_nil c rest2))
      simp [List.getLast?_cons_cons, hx]

theorem totalIntervalFrom_eq (l : List Keyframe) :
    ∀ prev : ℚ, totalIntervalFrom prev l = lastKeyframeTime prev l - prev := by
  induction l with
  | nil => intro prev; simp [totalIntervalFrom, lastKeyframeTime]
  | cons k rest ih =>
    intro prev
    rw [totalIntervalFrom, lastKeyframeTime, ih]
    ring

theorem planSegments_all_zero (d : ℚ) :
    ∀ (kfs : List Keyframe), (∀ k ∈ kfs, k.time = 0) →
      ∀ i : Nat, planSegments d i 0 kfs = [] := by
  intro kfs
  induction kfs with
  | nil => intro _ i; simp [planSegments]
  | cons kf rest ih =>
    intro hall i
    have hkf : kf.time = 0 := hall kf (by simp)
    have hrest : ∀ k ∈ rest, k.time = 0 := fun k hk => hall k (by simp [hk])
    simp only [planSegments]
    split
    · exact ih hrest (i + 1)
    · rw [if_pos (by simp [hkf])]
      exact ih hrest (i + 1)

theorem adjustForBar_eq_find (e : ℚ) :
    ∀ ms : List ℚ, adjustForBar e ms =
      match ms.find? (fun m => decide (50 ≤ e * m) && decide (e * m ≤ 200)) with
      | some m => e * m
      | none => e := by
  intro ms
  induction ms with
  | nil => simp [adjustForBar]
  | cons m rest ih =>
    rw [adjustForBar]
    by_cases h : 50 ≤ e * m ∧ e * m ≤ 200
    · rw [if_pos h,
        List.find?_cons_of_pos _ (by simp [h.1, h.2])]
    · rw [if_neg h, ih,
        List.find?_cons_of_neg _ (by simpa [Decidable.not_and_iff_or_not] using h)]

theorem goRound_eq_roundHalfAwayFromZero (x : ℚ) :
    goRound x = (roundHalfAwayFromZero x : ℚ) := by
  unfold goRound roundHalfAwayFromZero
  split
  · rfl
  · have h : (⌈x - 1 / 2⌉ : ℤ) = -⌊-x + 1 / 2⌋ := by
      rw [show -x + 1 / 2 = -(x - 1 / 2) by ring, Int.floor_neg, neg_neg]
    rw [h]

theorem estimateBPM_eq_parts (l : List Keyframe) (h2 : 2 ≤ l.length) :
    estimateBPM l =
      adjustForBar
        (60 / ((((l.getLast?).map Keyframe.time).getD 0 -
            ((l.head?).map Keyframe.time).getD 0) / ((l.length : ℚ) - 1)))
        [1, 2, 4] := by
  cases l with
  | nil => simp at h2
  | cons a rest =>
    cases rest with
    | nil => simp at h2
    | cons b rest2 =>
      rw [estimateBPM, if_neg (by simp)]
      have htot : totalInterval (a :: b :: rest2) =
          ((b :: rest2).getLast?.map Keyframe.time).getD 0 - a.time := by
        rw [totalInterval, totalIntervalFrom_eq, lastKeyframeTime_eq_getLastD]
        obtain ⟨x, hx⟩ := Option.isSome_iff_exists.mp
          (List.getLast?_isSome.mpr (List.cons_ne_nil b rest2))
        simp [hx]
      rw [htot]
      simp [List.getLast?_cons_cons]

/-- C1 (corrected): for every keyframe set and bpm > 0, every emitted
segment has a well-defined speed factor: the divisor (`targetDuration`)
is nonzero, so the division never produces an undefined value, and the
speed factor itself is nonzero. Strict positivity fails on the code (see
the counterexample): when the snapped beat time falls on the other side
of `lastTime` than the keyframe, the emitted speed factor is negative. -/
theorem speedFactor_nonzero_of_emitted (bpm : ℚ) (kfs : List Keyframe) (hb : 0 < bpm) :
    ∀ s ∈ planSegments (60 / bpm) 0 0 kfs,
      s.speedFactor ≠ 0 ∧ s.targetDuration ≠ 0 := by
  intro s hs
  obtain ⟨h1, h2, h3⟩ := mem_planSegments hs
  exact ⟨h3 ▸ div_ne_zero h1 h2, h2⟩

theorem speedFactor_nonzero_of_emitted_witness :
    (Segment.mk 0 1 1 1).speedFactor ≠ 0 ∧ (Segment.mk 0 1 1 1).targetDuration ≠ 0 :=
  speedFactor_nonzero_of_emitted 60 [⟨1⟩] (by decide) ⟨0, 1, 1, 1⟩ (by decide)

/-- C1 counterexample: at bpm 60 the keyframes 0.502 and 0.504 both snap to
beat time 0.5, so the second segment has source duration 1/500 but target
duration -1/500 and is emitted with speed factor -1, which is not strictly
positive. -/
theorem speedFactor_positive_counterexample :
    ffmpegAdjustSpeed 60 [⟨251 / 500⟩, ⟨63 / 125⟩] =
      .ok [⟨0, 251 / 500, 1 / 2, 251 / 250⟩, ⟨251 / 500, 63 / 125, -1 / 500, -1⟩] ∧
      ¬ (0 : ℚ) < -1 :=
  ⟨by decide, by decide⟩

/-- C2 (corrected): for keyframes [0, 0.5, 1.1] at bpm 60 the planner emits
exactly two segments, but `roundToBeat` rounds the beat index to the
nearest 0.01 rather than to an integer beat, so nearestBeat(0.5) = 0.5 and
nearestBeat(1.1) = 1.1: segment 1 has source (0, 0.5), target duration 0.5
and speed factor 1; segment 2 has source (0.5, 1.1), target duration 0.6
and speed factor 1. No epsilon clamp occurs. -/
theorem scenarioB_plan :
    ffmpegAdjustSpeed 60 [⟨0⟩, ⟨1 / 2⟩, ⟨11 / 10⟩] =
      .ok [⟨0, 1 / 2, 1 / 2, 1⟩, ⟨1 / 2, 11 / 10, 3 / 5, 1⟩] := by
  decide

/-- C2 counterexample: the first emitted segment of Scenario B has speed
factor 1 and target duration 0.5, not the claimed epsilon-clamped 0.01 with
speed factor 50. -/
theorem scenarioB_counterexample :
    ffmpegAdjustSpeed 60 [⟨0⟩, ⟨1 / 2⟩, ⟨11 / 10⟩] =
      .ok [⟨0, 1 / 2, 1 / 2, 1⟩, ⟨1 / 2, 11 / 10, 3 / 5, 1⟩] ∧
      ((1 : ℚ) ≠ 50 ∧ (1 / 2 : ℚ) ≠ 1 / 100) :=
  ⟨by decide, by decide⟩

/-- C3 (corrected): a candidate segment with zero source duration is
dropped, and the division computing the speed factor is always guarded
(its divisor `targetDuration` is nonzero); but a candidate segment whose
target duration is zero is NOT dropped — it is emitted with the divisor
clamped to 0.01 (see the counterexample). -/
theorem segment_divisor_guarded (bpm : ℚ) (kfs : List Keyframe) (hb : 0 < bpm) :
    ∀ s ∈ planSegments (60 / bpm) 0 0 kfs,
      s.sourceEnd - s.sourceStart ≠ 0 ∧ s.targetDuration ≠ 0 ∧
        s.speedFactor = (s.sourceEnd - s.sourceStart) / s.targetDuration :=
  fun _ hs => mem_planSegments hs

theorem segment_divisor_guarded_witness :
    (Segment.mk 0 2 2 1).sourceEnd - (Segment.mk 0 2 2 1).sourceStart ≠ 0 ∧
      (Segment.mk 0 2 2 1).targetDuration ≠ 0 ∧
      (Segment.mk 0 2 2 1).speedFactor =
        ((Segment.mk 0 2 2 1).sourceEnd - (Segment.mk 0 2 2 1).sourceStart) /
          (Segment.mk 0 2 2 1).targetDuration :=
  segment_divisor_guarded 60 [⟨2⟩] (by decide) ⟨0, 2, 2, 1⟩ (by decide)

/-- C3 counterexample: at bpm 60 the single keyframe at time 0.001 snaps to
beat time 0, so the candidate segment's target duration
`nearestBeatTime - lastTime` is zero, yet the segment is emitted (with the
divisor clamped to 0.01 and speed factor 0.1) rather than dropped. -/
theorem zero_target_segment_emitted :
    nearestBeatTime (60 / 60) (1 / 1000) - 0 = 0 ∧
      ffmpegAdjustSpeed 60 [⟨1 / 1000⟩] = .ok [⟨0, 1 / 1000, 1 / 100, 1 / 10⟩] :=
  ⟨by decide, by decide⟩

/-- C4 (confirmed): for every keyframe set and bpm > 0 the emitted segments
partition the source timeline: each segment's source start equals the
previous segment's source end, and the source durations sum to the last
keyframe's time minus the first retained boundary 0. -/
theorem plan_partitions_source (bpm : ℚ) (kfs : List Keyframe) (hb : 0 < bpm)
    (hne : kfs ≠ []) :
    List.Chain' (fun a b => a.sourceEnd = b.sourceStart)
      (planSegments (60 / bpm) 0 0 kfs) ∧
    ((planSegments (60 / bpm) 0 0 kfs).map
        (fun s => s.sourceEnd - s.sourceStart)).sum = (kfs.getLast hne).time - 0 := by
  constructor
  · exact chainedFrom_chain' _ _ (planSegments_chainedFrom _ _ _ _)
  · rw [planSegments_sum _ _ 0 0 (fun _ => rfl),
      lastKeyframeTime_eq_getLast kfs hne 0]

theorem plan_partitions_source_witness :
    List.Chain' (fun a b => a.sourceEnd = b.sourceStart)
      (planSegments (60 / 60) 0 0 [⟨0⟩, ⟨1⟩, ⟨2⟩]) ∧
    ((planSegments (60 / 60) 0 0 [⟨0⟩, ⟨1⟩, ⟨2⟩]).map
        (fun s => s.sourceEnd - s.sourceStart)).sum =
      (([⟨0⟩, ⟨1⟩, ⟨2⟩] : List Keyframe).getLast (by decide)).time - 0 :=
  plan_partitions_source 60 [⟨0⟩, ⟨1⟩, ⟨2⟩] (by decide) (by decide)

/-- C5 (confirmed): for every t and every beat duration derived from a
bpm > 0, the planner's nearest-beat computation equals the spec's formula:
round the beat index t / beatDuration half away from zero to the nearest
0.01 and multiply back by beatDuration. -/
theorem nearestBeat_matches_spec (bpm t : ℚ) (hb : 0 < bpm) :
    nearestBeatTime (60 / bpm) t = nearestBeatSpec t (60 / bpm) := by
  unfold nearestBeatTime nearestBeatSpec roundToBeat
  rw [goRound_eq_roundHalfAwayFromZero]

theorem nearestBeat_matches_spec_witness :
    (0 : ℚ) < 60 ∧ nearestBeatTime (60 / 60) (1 / 2) = nearestBeatSpec (1 / 2) (60 / 60) :=
  ⟨by decide, nearestBeat_matches_spec 60 (1 / 2) (by decide)⟩

/-- C6 (confirmed): for every keyframe set and bpm > 0 the planner returns
the verbatim error "no segments to process" exactly when the per-keyframe
loop emitted zero segments, and whenever at least one segment was emitted
it returns the plan successfully. -/
theorem no_segments_error_iff (bpm : ℚ) (kfs : List Keyframe) (hb : 0 < bpm) :
    (ffmpegAdjustSpeed bpm kfs = .error "no segments to process" ↔
      planSegments (60 / bpm) 0 0 kfs = []) ∧
    (planSegments (60 / bpm) 0 0 kfs ≠ [] →
      ffmpegAdjustSpeed bpm kfs = .ok (planSegments (60 / bpm) 0 0 kfs)) := by
  by_cases h : planSegments (60 / bpm) 0 0 kfs = []
  · simp [ffmpegAdjustSpeed, h]
  · simp [ffmpegAdjustSpeed, h]

theorem no_segments_error_iff_witness :
    (0 : ℚ) < 60 ∧
    ((ffmpegAdjustSpeed 60 [⟨0⟩] = .error "no segments to process" ↔
        planSegments (60 / 60) 0 0 [⟨0⟩] = []) ∧
      (planSegments (60 / 60) 0 0 [⟨0⟩] ≠ [] →
        ffmpegAdjustSpeed 60 [⟨0⟩] = .ok (planSegments (60 / 60) 0 0 [⟨0⟩]))) :=
  ⟨by decide, no_segments_error_iff 60 [⟨0⟩] (by decide)⟩

/-- C7 (corrected): the scenario "all keyframes at one identical time ends
in an empty plan and the PlanError" holds exactly when that common time is
0 — then the first keyframe is skipped by the leading-zero rule and all
others as zero source-duration segments. With a nonzero common time the
first keyframe emits a segment and no error occurs (see the
counterexample). -/
theorem identical_zero_time_error (bpm : ℚ) (kfs : List Keyframe) (hb : 0 < bpm)
    (hne : kfs ≠ []) (hall : ∀ k ∈ kfs, k.time = 0) :
    ffmpegAdjustSpeed bpm kfs = .error "no segments to process" := by
  simp [ffmpegAdjustSpeed, planSegments_all_zero (60 / bpm) kfs hall 0]

theorem identical_zero_time_error_witness :
    (0 : ℚ) < 60 ∧
      ffmpegAdjustSpeed 60 [⟨0⟩, ⟨0⟩] = .error "no segments to process" :=
  ⟨by decide, identical_zero_time_error 60 [⟨0⟩, ⟨0⟩] (by decide) (by decide) (by decide)⟩

/-- C7 counterexample: two keyframes both at time 5 (bpm 60) do not end in
an empty plan: the first keyframe emits the segment (0, 5) and the planner
succeeds rather than failing with "no segments to process". -/
theorem identical_nonzero_time_counterexample :
    ffmpegAdjustSpeed 60 [⟨5⟩, ⟨5⟩] = .ok [⟨0, 5, 5, 1⟩] ∧
      (Except.ok [(⟨0, 5, 5, 1⟩ : Segment)] ≠
        (Except.error "no segments to process" : Except String (List Segment))) :=
  ⟨by decide, by decide⟩

/-- C8 (confirmed): for every keyframe set with at least two entries and a
positive average interval, `estimateBPM` returns exactly what the spec
describes: `60 / averageInterval` multiplied by the first multiplier among
{1, 2, 4} whose product lands in [50, 200], or the unmultiplied estimate
when none qualifies. -/
theorem estimateBPM_matches_spec (kfs : List Keyframe) (h2 : 2 ≤ kfs.length)
    (hpos : 0 < totalInterval kfs / ((kfs.length : ℚ) - 1)) :
    estimateBPM kfs = estimateBPMSpec kfs := by
  unfold estimateBPM estimateBPMSpec
  rw [if_neg (by omega)]
  exact adjustForBar_eq_find _ _

theorem estimateBPM_matches_spec_witness :
    2 ≤ ([⟨0⟩, ⟨1⟩] : List Keyframe).length ∧
      (0 : ℚ) < totalInterval [⟨0⟩, ⟨1⟩] / ((([⟨0⟩, ⟨1⟩] : List Keyframe).length : ℚ) - 1) ∧
      estimateBPM [⟨0⟩, ⟨1⟩] = estimateBPMSpec [⟨0⟩, ⟨1⟩] :=
  ⟨by decide, by decide, estimateBPM_matches_spec [⟨0⟩, ⟨1⟩] (by decide) (by decide)⟩

/-- C9 (confirmed): for every bpm > 0, a keyframe list whose first keyframe
has time t > 0 yields a first emitted segment with source start 0 and
source end t (lastTime starts at 0 regardless of where the first keyframe
lies); in particular a single keyframe with nonzero time yields exactly one
segment and no PlanError. -/
theorem first_segment_starts_at_zero (bpm t : ℚ) (rest : List Keyframe)
    (hb : 0 < bpm) (ht : 0 < t) :
    ((planSegments (60 / bpm) 0 0 (⟨t⟩ :: rest)).head?.map
        (fun s => (s.sourceStart, s.sourceEnd))) = some (0, t) ∧
    ∀ u : ℚ, u ≠ 0 → ∃ s : Segment,
      ffmpegAdjustSpeed bpm [⟨u⟩] = .ok [s] ∧ s.sourceStart = 0 ∧ s.sourceEnd = u := by
  constructor
  · simp only [planSegments]
    rw [if_neg (by simp [ht.ne']), if_neg (by simpa using ht.ne')]
    simp
  · intro u hu
    have h1 : planSegments (60 / bpm) 0 0 [⟨u⟩] =
        [{ sourceStart := 0, sourceEnd := u,
           targetDuration := if nearestBeatTime (60 / bpm) u - 0 = 0 then 1 / 100
             else nearestBeatTime (60 / bpm) u - 0,
           speedFactor := (u - 0) / (if nearestBeatTime (60 / bpm) u - 0 = 0 then 1 / 100
             else nearestBeatTime (60 / bpm) u - 0) }] := by
      simp only [planSegments]
      rw [if_neg (by simp [hu]), if_neg (by simpa using hu)]
    refine ⟨Segment.mk 0 u
        (if nearestBeatTime (60 / bpm) u - 0 = 0 then 1 / 100
          else nearestBeatTime (60 / bpm) u - 0)
        ((u - 0) / (if nearestBeatTime (60 / bpm) u - 0 = 0 then 1 / 100
          else nearestBeatTime (60 / bpm) u - 0)), ?_, rfl, rfl⟩
    simp [ffmpegAdjustSpeed, h1]

theorem first_segment_starts_at_zero_witness :
    ((planSegments (60 / 60) 0 0 [⟨1⟩]).head?.map
        (fun s => (s.sourceStart, s.sourceEnd))) = some (0, 1) ∧
    ∃ s : Segment, ffmpegAdjustSpeed 60 [⟨2⟩] = .ok [s] ∧
      s.sourceStart = 0 ∧ s.sourceEnd = 2 :=
  ⟨(first_segment_starts_at_zero 60 1 [] (by decide) (by decide)).1,
   (first_segment_starts_at_zero 60 2 [] (by decide) (by decide)).2 2 (by decide)⟩

/-- C10 (confirmed): the summed consecutive intervals telescope, so
`estimateBPM` depends only on the first keyframe's time, the last
keyframe's time and the number of keyframes: any two keyframe sets that
agree on those three values receive the same estimate. -/
theorem estimateBPM_depends_only_on_ends (k1 k2 : List Keyframe)
    (h2 : 2 ≤ k1.length) (hlen : k1.length = k2.length)
    (hfirst : (k1.head?).map Keyframe.time = (k2.head?).map Keyframe.time)
    (hlast : (k1.getLast?).map Keyframe.time = (k2.getLast?).map Keyframe.time) :
    estimateBPM k1 = estimateBPM k2 := by
  rw [estimateBPM_eq_parts k1 h2, estimateBPM_eq_parts k2 (hlen ▸ h2),
    hfirst, hlast, hlen]

theorem estimateBPM_depends_only_on_ends_witness :
    estimateBPM [⟨0⟩, ⟨1⟩, ⟨2⟩] = estimateBPM [⟨0⟩, ⟨3 / 2⟩, ⟨2⟩] :=
  estimateBPM_depends_only_on_ends [⟨0⟩, ⟨1⟩, ⟨2⟩] [⟨0⟩, ⟨3 / 2⟩, ⟨2⟩]
    (by decide) (by decide) (by decide) (by decide)
